import Mathlib

set_option maxRecDepth 100000
set_option maxHeartbeats 1000000

/-!
Verification development for the plan-migration recommendation engine
(src/recommendation/engine.py, src/utils/init, src/config.py).

Modelling conventions (shallow embedding):
* Python strings are modelled as lists of characters (`Str := List Char`);
  `str.strip()` is `strip`, `str.lower()` is `lower`, substring tests
  (`k in s`) are `substrOf`.
* Python sets of strings are modelled as duplicate-free lists built with
  `List.dedup` / `sunion` / `sinter` / `sdiff`; membership, emptiness and
  cardinality (list length on duplicate-free lists) agree with Python set
  semantics.  Iteration order of a Python set is unspecified; the model
  fixes one enumeration, which is irrelevant for every property proved
  here (they only use membership, emptiness and counts).
* Python dicts are association lists in insertion order (Python 3.7+
  guarantees insertion order); lookup is `alookup` (keys of real dicts
  are unique, which theorems assume explicitly where it matters).
* Python float arithmetic on scores is modelled by exact fractions
  (`Frac`, an integer numerator with a positive integer denominator).
* Python `list.sort` (a stable sort by a key tuple, ascending) is
  modelled by the stable insertion sort `stableSort` with the boolean
  key comparison `candLe`; `sorted(...)` on feature sets is `pysorted`.
* `pandas.isna` and the truthiness of its result are modelled on the
  shapes the code actually receives (scalar / native list), following
  the documented pandas and numpy behaviour.
-/

namespace UMig

/-- Python strings as lists of characters. -/
abbrev Str := List Char

/-- Shorthand turning a Lean string literal into the model type. -/
def S (s : String) : Str := s.data

/-- Python str.lower (ASCII case folding, which covers every feature name
and keyword appearing in the configuration). -/
def lower (s : Str) : Str := s.map Char.toLower

/-- Whitespace test used by strip. -/
def isWS (c : Char) : Bool := c.isWhitespace

/-- Python str.strip: drop whitespace on both ends. -/
def strip (s : Str) : Str :=
  ((s.dropWhile isWS).reverse.dropWhile isWS).reverse

/-- clean_feature_name from src/utils: normalize a feature name for
comparison (strip whitespace).  On the string inputs the engine feeds it,
str(name) is the identity. -/
def clean_feature_name (name : Str) : Str := strip name

/-- Python list/str containment helper: does a occur as a contiguous
prefix of b. -/
def prefixOf : Str → Str → Bool
  | [], _ => true
  | _ :: _, [] => false
  | a :: as, b :: bs => decide (a = b) && prefixOf as bs

/-- Python substring test (a in b). -/
def substrOf (a : Str) : Str → Bool
  | [] => decide (a = [])
  | b :: bs => prefixOf a (b :: bs) || substrOf a bs

/-- Python s.split(",") (always returns at least one piece). -/
def splitComma : Str → List Str
  | [] => [[]]
  | c :: rest =>
    if c = ',' then [] :: splitComma rest
    else
      match splitComma rest with
      | [] => [[c]]
      | h :: t => (c :: h) :: t

/-- Set union a | b on the duplicate-free-list model of Python sets. -/
def sunion (a b : List Str) : List Str := a ++ b.filter (fun x => decide (x ∉ a))

/-- Set intersection a & b. -/
def sinter (a b : List Str) : List Str := a.filter (fun x => decide (x ∈ b))

/-- Set difference a - b. -/
def sdiff (a b : List Str) : List Str := a.filter (fun x => decide (x ∉ b))

/-- set.add on the list model. -/
def sinsert (l : List Str) (x : Str) : List Str := if x ∈ l then l else l ++ [x]

/-- Association-list lookup (Python dict lookup; dict keys are unique). -/
def alookup {β : Type} (l : List (Str × β)) (k : Str) : Option β :=
  (l.find? (fun kv => decide (kv.1 = k))).map Prod.snd

/-- Stable insertion into an ascending list: the new element goes before
the first element it compares less-or-equal to, hence after all earlier
elements with an equal key (stability). -/
def insAsc {α : Type} (le : α → α → Bool) (x : α) : List α → List α
  | [] => [x]
  | y :: ys => if le x y then x :: y :: ys else y :: insAsc le x ys

/-- Stable ascending sort, modelling Python list.sort (which is stable). -/
def stableSort {α : Type} (le : α → α → Bool) : List α → List α
  | [] => []
  | x :: xs => insAsc le x (stableSort le xs)

/-- Lexicographic less-or-equal on strings by character code point,
the order Python sorted() uses on strings. -/
def strle : Str → Str → Bool
  | [], _ => true
  | _ :: _, [] => false
  | a :: as, b :: bs => if a = b then strle as bs else decide (a < b)

/-- Python sorted() on a set of strings. -/
def pysorted (l : List Str) : List Str := stableSort strle l

/-- Exact fraction with a positive denominator: the model of the Python
float arithmetic performed on scores (all score expressions in the source
are exact small rationals). -/
structure Frac where
  num : Int
  den : Int
  den_pos : 0 < den

/-- Embed an integer as a fraction. -/
def Frac.ofInt (n : Int) : Frac := ⟨n, 1, one_pos⟩

/-- Fraction addition. -/
def Frac.add (x y : Frac) : Frac :=
  ⟨x.num * y.den + y.num * x.den, x.den * y.den, mul_pos x.den_pos y.den_pos⟩

/-- Fraction subtraction. -/
def Frac.sub (x y : Frac) : Frac :=
  ⟨x.num * y.den - y.num * x.den, x.den * y.den, mul_pos x.den_pos y.den_pos⟩

/-- Fraction multiplication. -/
def Frac.mul (x y : Frac) : Frac :=
  ⟨x.num * y.num, x.den * y.den, mul_pos x.den_pos y.den_pos⟩

/-- Fraction division; the engine only divides by positive integers
(max(1, user_count)), the other branch is unreachable junk. -/
def Frac.div (x y : Frac) : Frac :=
  if h : 0 < y.num then ⟨x.num * y.den, x.den * y.num, mul_pos x.den_pos h⟩
  else ⟨0, 1, one_pos⟩

/-- Value comparison of fractions (Python float comparison). -/
def Frac.ble (x y : Frac) : Bool := decide (x.num * y.den ≤ y.num * x.den)

/-- Python min on two score values. -/
def Frac.fmin (x y : Frac) : Frac := if Frac.ble x y then x else y

/-- Python max on two score values. -/
def Frac.fmax (x y : Frac) : Frac := if Frac.ble y x then x else y

/- ------------------------------------------------------------------ -/
/- Configuration constants from src/config.py                          -/
/- ------------------------------------------------------------------ -/

/-- GA_FEATURES from src/config.py (verbatim, including the duplicated
weatherLayer entry). -/
def GA_FEATURES : List Str :=
  [S "activitySequences", S "softAoi", S "nasAgGridTable", S "mapMarkers",
   S "weatherLayer", S "nasTransmissionInAreaActivityType",
   S "searchDraftBreadthFilters", S "nasAccidentsActivity", S "weatherLayer",
   S "warRiskArea", S "newNasRiskDesign", S "newNasSideBarDesign",
   S "darkFleetVOI", S "trafficLanes", S "uncertaintyArea", S "grayFleetVOI",
   S "userAlreadyLoggedInWarning"]

/-- IRRELEVANT_FEATURES from src/config.py (activitySequences is also in
GA_FEATURES, exercising the precedence rule). -/
def IRRELEVANT_FEATURES : List Str :=
  [S "activitySequences", S "advancedSearch", S "advancedSearchOwners",
   S "elasticSearch", S "meetings"]

/-- SUBTYPE_KEYWORD_MAP from src/config.py, in dict insertion order. -/
def SUBTYPE_KEYWORD_MAP : List (Str × Str) :=
  [(S "bunkering", S "Bunkering"), (S "oil", S "Oil"), (S "energy", S "Oil"),
   (S "shipowner", S "Shipowners"), (S "operator", S "Shipowners"),
   (S "insurance", S "Insurer"), (S "insurer", S "Insurer"),
   (S "financial", S "Financial"), (S "bank", S "Financial"),
   (S "commodity", S "Commodity"), (S "trader", S "Commodity"),
   (S "freight", S "Maritime"), (S "maritime", S "Maritime")]

/-- EXTRA_COST_FEATURES from src/config.py (a Python set literal; the
duplicated uboData entry collapses; only case-insensitive membership is
ever used). -/
def EXTRA_COST_FEATURES : List Str :=
  [S "uboData", S "wetCargoData", S "visualLinkAnalysis", S "nasAgGridTable",
   S "maiExpertVesselSummary", S "cddScreening", S "exportCenter"]

/-- EXTRA_COST_BLOAT_WEIGHT from src/config.py. -/
def EXTRA_COST_BLOAT_WEIGHT : Int := 100

/-- DEFAULT_SYNONYMS from src/recommendation/engine.py. -/
def DEFAULT_SYNONYMS : List (Str × Str) :=
  [(S "Advanced Search", S "advancedSearchOwners"),
   (S "Port Control", S "portStateControl"),
   (S "Weather Map", S "weatherLayer")]

/-- Membership of the lowercased cost set
(cost_set = x.lower for x in EXTRA_COST_FEATURES); the engine tests
str(b).strip().lower() in cost_set. -/
def isCostly (b : Str) : Bool := decide (lower (strip b) ∈ EXTRA_COST_FEATURES.map lower)

/- ------------------------------------------------------------------ -/
/- canonicalize and the engine state                                   -/
/- ------------------------------------------------------------------ -/

/-- canonicalize(name, synonyms) from src/recommendation/engine.py:
trim, empty passes through, first case-insensitive synonym-key match
returns the trimmed mapped value, otherwise the trimmed input. -/
def canonicalize (name : Str) (synonyms : List (Str × Str)) : Str :=
  let s := clean_feature_name name
  if s = [] then s
  else
    match synonyms.find? (fun kv => decide (lower s = lower (strip kv.1))) with
    | some kv => strip kv.2
    | none => s

/-- Engine state: the fields MigrationLogic.init assigns on self
(plan_json construction path; the pandas matrix fallback is a data
adapter outside the scope of the claims). -/
structure MigrationLogic where
  synonyms : List (Str × Str)
  plan_definitions : List (Str × List Str)
  cost_bloat_weight : Int
  ga_set : List Str
  irrelevant_set : List Str
  add_on_plans : List (Str × List Str)
  feature_alias : List (Str × Str)

/-- add_alias inner helper of MigrationLogic.init: register each feature
under its lowercased key, first writer wins, empty keys skipped. -/
def addAliasFrom (al : List (Str × Str)) (feats : List Str) : List (Str × Str) :=
  feats.foldl
    (fun al feat =>
      let key := lower (strip feat)
      if key ≠ [] ∧ (alookup al key).isNone then al ++ [(key, feat)] else al)
    al

/-- MigrationLogic.init on the plan_json path: canonicalize the plan
catalog, the GA/Irrelevant sets and the add-on bundles, then build the
case-insensitive alias table from plan features, add-on features, GA
features and irrelevant features, in that order.  (Python iterates the
canonicalized sets in unspecified order; the model iterates the
canonicalized lists, and which same-lowercase variant wins first is
equally unspecified in both.) -/
def mkEngine (planJson : List (Str × List Str)) (synonyms : Option (List (Str × Str)))
    (rawAddons : List (Str × List Str)) (costW : Option Int) : MigrationLogic :=
  let syn := synonyms.getD DEFAULT_SYNONYMS
  let plansCanon := planJson.map (fun kv => (kv.1, (kv.2.map (fun x => canonicalize x syn)).dedup))
  let gaList := (GA_FEATURES.map (fun f => canonicalize f syn)).dedup
  let irrList := (IRRELEVANT_FEATURES.map (fun f => canonicalize f syn)).dedup
  let addonsCanon := rawAddons.map (fun kv => (kv.1, (kv.2.map (fun x => canonicalize x syn)).dedup))
  let alias0 := plansCanon.foldl (fun al kv => addAliasFrom al kv.2) []
  let alias1 := addonsCanon.foldl (fun al kv => addAliasFrom al kv.2) alias0
  let alias2 := addAliasFrom alias1 gaList
  let alias3 := addAliasFrom alias2 irrList
  { synonyms := syn
    plan_definitions := plansCanon
    cost_bloat_weight := costW.getD EXTRA_COST_BLOAT_WEIGHT
    ga_set := gaList
    irrelevant_set := irrList
    add_on_plans := addonsCanon
    feature_alias := alias3 }

/-- MigrationLogic.canon_feature: trim, synonym mapping by
case-insensitive key, then snap to a known canonical feature via the
alias table, else pass through. -/
def MigrationLogic.canon_feature (L : MigrationLogic) (name : Str) : Str :=
  let s := clean_feature_name name
  if s = [] then s
  else
    match L.synonyms.find? (fun kv => decide (lower s = lower (strip kv.1))) with
    | some kv => strip kv.2
    | none => (alookup L.feature_alias (lower s)).getD s

/-- Result of MigrationLogic.classify. -/
structure Classified where
  ga : List Str
  irrelevant : List Str
  normal : List Str

/-- MigrationLogic.classify: canonicalize each feature and bucket it,
GA first, then Irrelevant, else Normal (buckets are sets). -/
def MigrationLogic.classify (L : MigrationLogic) (features : List Str) : Classified :=
  let img := (features.map (fun f => canonicalize f L.synonyms)).dedup
  { ga := img.filter (fun cf => decide (cf ∈ L.ga_set))
    irrelevant := img.filter (fun cf => decide (cf ∉ L.ga_set) && decide (cf ∈ L.irrelevant_set))
    normal := img.filter (fun cf => decide (cf ∉ L.ga_set) && decide (cf ∉ L.irrelevant_set)) }

/-- MigrationLogic.get_relevant_plans: null subtype gives no plans; scan
the keyword map in order for the first keyword contained in the
lowercased subtype; a missing (or falsy) family keyword gives no plans;
otherwise every plan whose name contains the family keyword
case-insensitively. -/
def MigrationLogic.get_relevant_plans (L : MigrationLogic) (subtype : Option Str) : List Str :=
  match subtype with
  | none => []
  | some st =>
    let s := lower st
    match SUBTYPE_KEYWORD_MAP.find? (fun kv => substrOf kv.1 s) with
    | none => []
    | some kv =>
      if kv.2 = [] then []
      else (L.plan_definitions.map Prod.fst).filter (fun p => substrOf (lower kv.2) (lower p))

/-- MigrationLogic.families_for_feature: every family keyword whose name
occurs in the name of a plan containing the feature. -/
def MigrationLogic.families_for_feature (L : MigrationLogic) (feature : Str) : List Str :=
  L.plan_definitions.foldl
    (fun fams kv =>
      SUBTYPE_KEYWORD_MAP.foldl
        (fun fams2 p =>
          if substrOf (lower p.2) (lower kv.1) ∧ feature ∈ kv.2 then sinsert fams2 p.2
          else fams2)
        fams)
    []

/-- MigrationLogic.business_value_score, with Python float arithmetic
modelled exactly:
30 * coverage_ratio + 10 * subtype_aligned - 2 * extras
- 20 * missing_critical - 5 * synonym_used, clamped to [-100, 100];
a user count of zero short-circuits to 0. -/
def MigrationLogic.business_value_score (coverage_count user_count extras_count missing_critical : Nat)
    (subtype_aligned : Bool) (synonym_used : Nat) : Frac :=
  if user_count = 0 then Frac.ofInt 0
  else
    let coverage_ratio := Frac.div (Frac.ofInt coverage_count) (Frac.ofInt (max 1 user_count))
    let score :=
      ((((Frac.ofInt 30).mul coverage_ratio).add
        (if subtype_aligned then Frac.ofInt 10 else Frac.ofInt 0)).sub
        ((Frac.ofInt 2).mul (Frac.ofInt extras_count))).sub
        (((Frac.ofInt 20).mul (Frac.ofInt missing_critical)).add
         ((Frac.ofInt 5).mul (Frac.ofInt synonym_used)))
    Frac.fmax (Frac.ofInt (-100)) (Frac.fmin (Frac.ofInt 100) score)

/- ------------------------------------------------------------------ -/
/- parse_feature_list and the account row                              -/
/- ------------------------------------------------------------------ -/

/-- The shapes of the featureNames cell parse_feature_list receives:
NaN/None, a native Python list of strings, a string that
ast.literal_eval parses to a list of strings (the constructor carries
that parse), or a string literal_eval rejects with ValueError or
SyntaxError. -/
inductive PyVal where
  | vNone : PyVal
  | vList (xs : List Str) : PyVal
  | vStrList (strRepr : Str) (xs : List Str) : PyVal
  | vStrBad (s : Str) : PyVal

/-- parse_feature_list from src/utils.  pd.isna on a scalar answers
whether it is missing; on a native list pandas returns an elementwise
bool array, and the truth test of that array raises ValueError unless
the array has exactly one element (numpy truthiness), an exception the
permissive handler catches, falling through to the CSV branch, which a
list also fails, yielding [].  A parse failure on a string falls back to
splitting on commas when one is present, else []. -/
def parse_feature_list : PyVal → List Str
  | .vNone => []
  | .vList xs => if xs.length = 1 then xs else []
  | .vStrList _ xs => xs
  | .vStrBad s => if (',' ∈ s) then (splitComma s).map strip else []

/-- An account row as the engine reads it: the Sub Type cell (none models
a null/NaN cell; a missing key behaves like the string Unknown, which
matches no keyword) and the featureNames cell. -/
structure Acct where
  subtype : Option Str
  featureNames : PyVal

/- ------------------------------------------------------------------ -/
/- Candidate evaluation                                                -/
/- ------------------------------------------------------------------ -/

/-- One evaluated candidate row (row_data in MigrationLogic.recommend).
List-valued fields hold the contents of the corresponding Python
sets/lists; sorted presentation uses pysorted. -/
structure Cand where
  plan : Str
  addOnPlans : List Str
  covered_features : List Str
  extras : List Str
  feature_extras : List Str
  bloat_features : List Str
  bloat_score : Nat
  bloat_costly : List Str
  bloat_costly_count : Nat
  bloat_weighted : Int
  extras_count : Nat
  extras_weighted : Nat
  coverage_count : Nat
  business_value_score : Frac
  gaFeatures : List Str
  irrelevantFeatures : List Str
  planFeatures : List Str
  accountFeatures : List Str
  missingFeatures : List Str

/-- The canonicalized user feature set of an account row. -/
def userFeaturesOf (L : MigrationLogic) (acct : Acct) : List Str :=
  ((parse_feature_list acct.featureNames).map L.canon_feature).dedup

/-- synonym_hits: raw user features whose canonicalization differs from
their cleaned form (a set; its size feeds the scores). -/
def synonymHitsOf (L : MigrationLogic) (acct : Acct) : List Str :=
  ((parse_feature_list acct.featureNames).filter
    (fun f => decide (canonicalize f L.synonyms ≠ clean_feature_name f))).dedup

/-- applied_add_ons: the add-on bundles from which the account uses at
least one feature, in catalog order. -/
def appliedAddOns (L : MigrationLogic) (userF : List Str) : List Str :=
  (L.add_on_plans.filter (fun kv => kv.2.any (fun f => decide (f ∈ userF)))).map Prod.fst

/-- add_on_cover: the union over the add-on bundles of the subset of
their features the account actually uses. -/
def addOnCover : List (Str × List Str) → List Str → List Str
  | [], _ => []
  | kv :: rest, userF =>
    sunion (kv.2.filter (fun f => decide (f ∈ userF))) (addOnCover rest userF)

/-- plan_features_raw for a candidate: the cleaned feature set the
catalog stores for the plan (missing plans give the empty set). -/
def planRawOf (L : MigrationLogic) (plan : Str) : List Str :=
  (((alookup L.plan_definitions plan).getD []).map clean_feature_name).dedup

/-- combined_plan_features: base plan features plus the used subset of
the applicable add-on features. -/
def effectiveOf (L : MigrationLogic) (userF : List Str) (plan : Str) : List Str :=
  sunion (planRawOf L plan) (addOnCover L.add_on_plans userF)

/-- Display extras merge: feature-level extras not covered by an add-on
followed by the applied add-on names, stripped and deduplicated by
lowercase key, empty keys skipped. -/
def mergeExtrasAux (seen : List Str) : List Str → List Str
  | [] => []
  | x :: xs =>
    let key := lower (strip x)
    if key ≠ [] ∧ key ∉ seen then strip x :: mergeExtrasAux (key :: seen) xs
    else mergeExtrasAux seen xs

/-- The merged extras list shown to reviewers. -/
def mergeExtras (xs : List Str) : List Str := mergeExtrasAux [] xs

/-- The per-candidate evaluation body of the loop in
MigrationLogic.recommend. -/
def evalCand (L : MigrationLogic) (userF : List Str) (synHits : Nat)
    (cover : List Str) (applied : List Str) (plan : Str) : Cand :=
  let combined := effectiveOf L userF plan
  let u := L.classify userF
  let p := L.classify combined
  let user_norm := u.normal
  let plan_norm := p.normal
  let covered := pysorted (sinter user_norm plan_norm)
  let feature_extras := pysorted (sdiff user_norm plan_norm)
  let bloat := pysorted (sdiff plan_norm user_norm)
  let bloat_costly := bloat.filter isCostly
  let bloat_weighted : Int := (bloat.length : Int) + L.cost_bloat_weight * (bloat_costly.length : Int)
  let bv := MigrationLogic.business_value_score covered.length userF.length
    feature_extras.length 0 true synHits
  let fe_not_addon := feature_extras.filter (fun f => decide (f ∉ cover))
  let merged := mergeExtras (fe_not_addon ++ applied)
  { plan := plan
    addOnPlans := applied
    covered_features := covered
    extras := merged
    feature_extras := feature_extras
    bloat_features := bloat
    bloat_score := bloat.length
    bloat_costly := bloat_costly
    bloat_costly_count := bloat_costly.length
    bloat_weighted := bloat_weighted
    extras_count := feature_extras.length
    extras_weighted := feature_extras.length
    coverage_count := covered.length
    business_value_score := bv
    gaFeatures := pysorted (sunion u.ga p.ga)
    irrelevantFeatures := pysorted (sunion u.irrelevant p.irrelevant)
    planFeatures := pysorted plan_norm
    accountFeatures := pysorted user_norm
    missingFeatures := feature_extras }

/-- The candidate plans of an account. -/
def candidatesOf (L : MigrationLogic) (acct : Acct) : List Str :=
  L.get_relevant_plans acct.subtype

/-- The full analyses list (one row per relevant plan). -/
def analysesOf (L : MigrationLogic) (acct : Acct) : List Cand :=
  let userF := userFeaturesOf L acct
  (candidatesOf L acct).map
    (evalCand L userF (synonymHitsOf L acct).length
      (addOnCover L.add_on_plans userF) (appliedAddOns L userF))

/-- valid_candidates: analyses rows carrying no costly bloat. -/
def validOf (L : MigrationLogic) (acct : Acct) : List Cand :=
  (analysesOf L acct).filter (fun c => decide (c.bloat_costly.length = 0))

/-- The boolean rendering of the Python sort key tuple
(extras_count asc, bloat_weighted asc, coverage_count desc,
business_value_score desc), compared lexicographically. -/
def candLe (a b : Cand) : Bool :=
  if a.extras_count = b.extras_count then
    if a.bloat_weighted = b.bloat_weighted then
      if a.coverage_count = b.coverage_count then
        Frac.ble b.business_value_score a.business_value_score
      else decide (b.coverage_count < a.coverage_count)
    else decide (a.bloat_weighted < b.bloat_weighted)
  else decide (a.extras_count < b.extras_count)

/-- valid_candidates after the stable sort. -/
def sortedValidOf (L : MigrationLogic) (acct : Acct) : List Cand :=
  stableSort candLe (validOf L acct)

/-- all_plan_features: the union of every feature set in the catalog. -/
def allPlanFeatures (L : MigrationLogic) : List Str :=
  L.plan_definitions.foldl (fun acc kv => sunion acc kv.2) []

/-- The account families diagnostic: the union of families_for_feature
over the user features; ambiguous when more than one family shows up. -/
def famsOf (L : MigrationLogic) (userF : List Str) : List Str :=
  userF.foldl (fun fams f => sunion fams (L.families_for_feature f)) []

/-- migration_confidence: clamp(30 * coverage_ratio + 10 * (not
ambiguous) - 2 * extras_count - 5 * synonym_hits, 0, 100). -/
def migrationConfidence (coverage_count user_count extras_count synHits : Nat)
    (ambiguous : Bool) : Frac :=
  let coverage_ratio := Frac.div (Frac.ofInt coverage_count) (Frac.ofInt (max 1 user_count))
  let conf :=
    (((Frac.ofInt 30).mul coverage_ratio).add
      (if ambiguous then Frac.ofInt 0 else Frac.ofInt 10)).sub
      (((Frac.ofInt 2).mul (Frac.ofInt extras_count)).add
       ((Frac.ofInt 5).mul (Frac.ofInt synHits)))
  Frac.fmax (Frac.ofInt 0) (Frac.fmin (Frac.ofInt 100) conf)

/-- Python ", ".join. -/
def joinComma : List Str → Str
  | [] => []
  | [x] => x
  | x :: y :: rest => x ++ S ", " ++ joinComma (y :: rest)

/-- The result dict returned with status NO_MATCHING_PLANS. -/
structure NoMatchR where
  recommended_plan : Str
  covered_features : List Str
  extras : List Str
  bloat_features : List Str
  bloat_score : Nat
  extras_count : Nat
  reason : Str
  all_candidates : List Cand
  ambiguous_mapping : Bool
  unrecognized_features : List Str
  migration_confidence : Frac

/-- The result dict returned with status No Valid Plans. -/
structure NoValidR where
  recommended_plan : Str
  covered_features : List Str
  extras : List Str
  bloat_features : List Str
  bloat_score : Nat
  bloat_costly : List Str
  bloat_costly_count : Nat
  bloat_weighted : Int
  extras_count : Nat
  extras_weighted : Nat
  all_candidates : List Cand
  reason : Str
  ambiguous_mapping : Bool
  unrecognized_features : List Str
  migration_confidence : Frac

/-- The result dict returned with status Success. -/
structure SuccessR where
  recommended_plan : Str
  addOnPlans : List Str
  covered_features : List Str
  extras : List Str
  feature_extras : List Str
  bloat_features : List Str
  bloat_score : Nat
  bloat_costly : List Str
  bloat_costly_count : Nat
  extras_count : Nat
  extras_weighted : Nat
  bloat_weighted : Int
  business_value_score : Frac
  ambiguous_mapping : Bool
  unrecognized_features : List Str
  migration_confidence : Frac
  all_candidates : List Cand
  all_plans : List Cand
  gaFeatures : List Str
  irrelevantFeatures : List Str
  planFeatures : List Str
  accountFeatures : List Str
  missingFeatures : List Str
  why : Str

/-- The tagged recommendation result; the constructors carry the status
strings NO_MATCHING_PLANS, No Valid Plans and Success respectively. -/
inductive Result where
  | noMatch (r : NoMatchR) : Result
  | noValid (r : NoValidR) : Result
  | success (r : SuccessR) : Result

/-- The text representation Python would interpolate for the subtype in
the NO_MATCHING_PLANS reason (a NaN cell prints as nan). -/
def subtypeRepr : Option Str → Str
  | none => S "nan"
  | some st => st

/-- The NO_MATCHING_PLANS result body. -/
def noMatchResult (L : MigrationLogic) (acct : Acct) : NoMatchR :=
  { recommended_plan := S "Manual Review"
    covered_features := []
    extras := []
    bloat_features := []
    bloat_score := 0
    extras_count := 0
    reason := S "No plans found for subtype '" ++ subtypeRepr acct.subtype ++ S "'"
    all_candidates := []
    ambiguous_mapping := false
    unrecognized_features := userFeaturesOf L acct
    migration_confidence := Frac.ofInt 0 }

/-- The No Valid Plans result body. -/
def noValidResult (L : MigrationLogic) (acct : Acct) : NoValidR :=
  { recommended_plan := S "Manual Review"
    covered_features := []
    extras := []
    bloat_features := []
    bloat_score := 0
    bloat_costly := []
    bloat_costly_count := 0
    bloat_weighted := 0
    extras_count := 0
    extras_weighted := 0
    all_candidates := []
    reason := S "All candidates rejected due to paid bloat or no subtype matches"
    ambiguous_mapping := false
    unrecognized_features :=
      pysorted ((userFeaturesOf L acct).filter (fun f => decide (f ∉ allPlanFeatures L)))
    migration_confidence := Frac.ofInt 0 }

/-- The Success result body built from the winning candidate. -/
def successResult (L : MigrationLogic) (acct : Acct) (winner : Cand) : SuccessR :=
  let userF := userFeaturesOf L acct
  let synHits := (synonymHitsOf L acct).length
  let ambiguous := decide (1 < (famsOf L userF).length)
  { recommended_plan := winner.plan
    addOnPlans := appliedAddOns L userF
    covered_features := winner.covered_features
    extras := winner.extras
    feature_extras := winner.feature_extras
    bloat_features := winner.bloat_features
    bloat_score := winner.bloat_score
    bloat_costly := winner.bloat_costly
    bloat_costly_count := winner.bloat_costly_count
    extras_count := winner.extras_count
    extras_weighted := winner.extras_weighted
    bloat_weighted := winner.bloat_weighted
    business_value_score := winner.business_value_score
    ambiguous_mapping := ambiguous
    unrecognized_features := pysorted (userF.filter (fun f => decide (f ∉ allPlanFeatures L)))
    migration_confidence :=
      migrationConfidence winner.coverage_count userF.length winner.extras_count synHits ambiguous
    all_candidates := sortedValidOf L acct
    all_plans := analysesOf L acct
    gaFeatures := winner.gaFeatures
    irrelevantFeatures := winner.irrelevantFeatures
    planFeatures := winner.planFeatures
    accountFeatures := winner.accountFeatures
    missingFeatures := winner.missingFeatures
    why :=
      S "GA Features in this plan: " ++
        (if joinComma winner.gaFeatures = [] then S "None" else joinComma winner.gaFeatures) }

/-- MigrationLogic.recommend: short-circuit on an empty candidate list,
evaluate and filter candidates, short-circuit when the red line rejects
every candidate, otherwise sort the valid candidates and take the first
as the winner. -/
def MigrationLogic.recommend (L : MigrationLogic) (acct : Acct) : Result :=
  if candidatesOf L acct = [] then .noMatch (noMatchResult L acct)
  else
    match sortedValidOf L acct with
    | [] => .noValid (noValidResult L acct)
    | winner :: _ => .success (successResult L acct winner)

/- ------------------------------------------------------------------ -/
/- Human override                                                      -/
/- ------------------------------------------------------------------ -/

/-- The result dict of apply_human_override with status
REJECTED_RED_LINE. -/
structure RejectedR where
  reason : Str
  paid_bloat : List Str

/-- The result dict of apply_human_override with status APPROVED_BY_CSM. -/
structure ApprovedR where
  final_plan : Str
  extras : List Str
  covered_features : List Str
  bloat_features : List Str
  bloat_costly : List Str
  bloat_costly_count : Nat
  bloat_score : Nat
  gaFeatures : List Str
  irrelevantFeatures : List Str

/-- The tagged override result; the constructors carry the status strings
REJECTED_RED_LINE and APPROVED_BY_CSM respectively. -/
inductive OvResult where
  | rejected (r : RejectedR) : OvResult
  | approved (r : ApprovedR) : OvResult

/-- extras_canon in apply_human_override. -/
def overrideExtrasCanon (L : MigrationLogic) (extras_list : List Str) : List Str :=
  extras_list.map L.canon_feature

/-- user_canon in apply_human_override. -/
def overrideUserCanon (L : MigrationLogic) (user_features : List Str) : List Str :=
  user_features.map L.canon_feature

/-- combined_plan_features in apply_human_override: the base plan feature
set united with the used subset of the add-on features. -/
def overrideCombined (L : MigrationLogic) (planSet user_canon : List Str) : List Str :=
  sunion planSet.dedup (addOnCover L.add_on_plans user_canon.dedup)

/-- bloat_features in apply_human_override: the effective bundle
(plan_norm union extras_norm) minus user_norm, sorted. -/
def overrideBloat (L : MigrationLogic) (planSet extras_list user_features : List Str) : List Str :=
  pysorted (sdiff
    (sunion (L.classify (overrideCombined L planSet (overrideUserCanon L user_features))).normal
            (L.classify (overrideExtrasCanon L extras_list)).normal)
    (L.classify (overrideUserCanon L user_features)).normal)

/-- paid_bloat in apply_human_override: the costly subset of the bloat. -/
def overridePaidBloat (L : MigrationLogic) (planSet extras_list user_features : List Str) : List Str :=
  (overrideBloat L planSet extras_list user_features).filter isCostly

/-- The body of apply_human_override once the base plan feature set is
fetched from the catalog (unknown plan names yield the empty set). -/
def overrideCore (L : MigrationLogic) (plan_name : Str) (planSet : List Str)
    (extras_list user_features : List Str) : OvResult :=
  if overridePaidBloat L planSet extras_list user_features ≠ [] then
    .rejected { reason := S "Override introduces paid bloat"
                paid_bloat := overridePaidBloat L planSet extras_list user_features }
  else
    .approved
      { final_plan := plan_name
        extras := pysorted (L.classify (overrideExtrasCanon L extras_list)).normal.dedup
        covered_features :=
          pysorted (sinter (L.classify (overrideUserCanon L user_features)).normal
            (L.classify (overrideCombined L planSet (overrideUserCanon L user_features))).normal)
        bloat_features := overrideBloat L planSet extras_list user_features
        bloat_costly := overridePaidBloat L planSet extras_list user_features
        bloat_costly_count := (overridePaidBloat L planSet extras_list user_features).length
        bloat_score := (overrideBloat L planSet extras_list user_features).length
        gaFeatures :=
          pysorted (sunion (L.classify (overrideUserCanon L user_features)).ga
            (L.classify (overrideCombined L planSet (overrideUserCanon L user_features))).ga)
        irrelevantFeatures :=
          pysorted (sunion (L.classify (overrideUserCanon L user_features)).irrelevant
            (L.classify (overrideCombined L planSet (overrideUserCanon L user_features))).irrelevant) }

/-- MigrationLogic.apply_human_override: validate a CSM override,
rejecting any override whose effective bundle grants costly features the
account does not use. -/
def MigrationLogic.apply_human_override (L : MigrationLogic) (plan_name : Str)
    (extras_list user_features : List Str) : OvResult :=
  overrideCore L plan_name ((alookup L.plan_definitions plan_name).getD []) extras_list user_features

/- ------------------------------------------------------------------ -/
/- Projections used by witnesses                                       -/
/- ------------------------------------------------------------------ -/

/-- Status test: is the result a Success. -/
def Result.isSuccess : Result → Bool
  | .success _ => true
  | _ => false

/-- The bloat_costly field of a Success result. -/
def Result.bloatCostlyOf : Result → Option (List Str)
  | .success r => some r.bloat_costly
  | _ => none

/-- The recommended_plan field of a Success result. -/
def Result.planOf : Result → Option Str
  | .success r => some r.recommended_plan
  | _ => none

/-- The unrecognized_features field (present in every status). -/
def Result.unrecognizedOf : Result → List Str
  | .noMatch r => r.unrecognized_features
  | .noValid r => r.unrecognized_features
  | .success r => r.unrecognized_features

/-- Status test: did the override approve. -/
def OvResult.isApproved : OvResult → Bool
  | .approved _ => true
  | _ => false

/-- The final_plan field of an approved override. -/
def OvResult.finalPlanOf : OvResult → Option Str
  | .approved r => some r.final_plan
  | _ => none

/-- The bloat_costly field of an approved override. -/
def OvResult.bloatCostlyOf : OvResult → Option (List Str)
  | .approved r => some r.bloat_costly
  | _ => none

/- ------------------------------------------------------------------ -/
/- Concrete instances used by witnesses and counterexamples            -/
/- ------------------------------------------------------------------ -/

/-- A one-plan engine (default synonyms, no add-ons). -/
def Eplain : MigrationLogic :=
  mkEngine [(S "Bunkering Base", [S "portStateControl"])] none [] none

/-- An account using portStateControl under the Bunkering subtype. -/
def acctPlain : Acct := ⟨some (S "Bunkering"), PyVal.vList [S "portStateControl"]⟩

/-- The two-plan engine of the ranking scenario from the repository
tests. -/
def Erank : MigrationLogic :=
  mkEngine [(S "Bunkering Plan A", [S "portStateControl", S "x", S "y", S "z"]),
            (S "Bunkering Plan B", [S "portStateControl"])] none [] none

/-- An engine with an add-on bundle whose name is the empty string. -/
def EemptyAddon : MigrationLogic :=
  mkEngine [(S "Bunkering Base", [])] none [(S "", [S "x"])] none

/-- An engine with a normally named add-on bundle supplying x. -/
def EnamedAddon : MigrationLogic :=
  mkEngine [(S "Bunkering Base", [])] none [(S "Extra Pack", [S "x"])] none

/-- An account using the feature x under the Bunkering subtype. -/
def acctX : Acct := ⟨some (S "Bunkering"), PyVal.vList [S "x"]⟩

/-- An engine whose only plan carries the feature x. -/
def Ex : MigrationLogic := mkEngine [(S "Bunkering Base", [S "x"])] none [] none

/-- An account with an unmapped subtype that uses the known feature x. -/
def acctUnmapped : Acct := ⟨some (S "zzz"), PyVal.vList [S "x"]⟩

/-- An engine whose only plan carries a GA feature beside a normal one. -/
def Ega : MigrationLogic :=
  mkEngine [(S "Bunkering Base", [S "weatherLayer", S "portStateControl"])] none [] none

/-- An account using the GA feature weatherLayer. -/
def acctGa : Acct := ⟨some (S "Bunkering"), PyVal.vList [S "weatherLayer"]⟩

/-- A synonym table with a chained entry: the value of the first entry is
itself a key mapped elsewhere. -/
def chainSyn : List (Str × Str) := [(S "a", S "b"), (S "b", S "c")]

/-- The unrecognized-features diagnostic as the spec words it: user
features not present in any plan feature set across the catalog. -/
def specUnrecognized (L : MigrationLogic) (userF : List Str) : List Str :=
  userF.filter (fun f => decide (∀ kv ∈ L.plan_definitions, f ∉ kv.2))

/- ------------------------------------------------------------------ -/
/- Helper lemmas: strings and strip                                    -/
/- ------------------------------------------------------------------ -/

theorem dropWhile_idem (p : Char → Bool) (l : List Char) :
    (l.dropWhile p).dropWhile p = l.dropWhile p := by
  induction l with
  | nil => rfl
  | cons a t ih =>
    by_cases h : p a
    · simp [List.dropWhile_cons, h, ih]
    · simp [List.dropWhile_cons, h]

theorem exists_append_dropWhile (p : Char → Bool) (l : List Char) :
    ∃ t, t ++ l.dropWhile p = l := by
  induction l with
  | nil => exact ⟨[], rfl⟩
  | cons a t ih =>
    by_cases h : p a
    · obtain ⟨u, hu⟩ := ih
      exact ⟨a :: u, by simp [List.dropWhile_cons, h, hu]⟩
    · exact ⟨[], by simp [List.dropWhile_cons, h]⟩

theorem head_false_of_dropWhile_fix (p : Char → Bool) (a : Char) (v : List Char)
    (h : (a :: v).dropWhile p = a :: v) : p a = false := by
  cases hpa : p a with
  | false => rfl
  | true =>
    rw [List.dropWhile_cons, if_pos hpa] at h
    obtain ⟨u, hu⟩ := exists_append_dropWhile p v
    have h1 : (v.dropWhile p).length = v.length + 1 := by rw [h]; simp
    have h2 : u.length + (v.dropWhile p).length = v.length := by
      rw [← List.length_append, hu]
    omega

theorem strip_idem (s : Str) : strip (strip s) = strip s := by
  have hu_fix : (s.dropWhile isWS).dropWhile isWS = s.dropWhile isWS := dropWhile_idem isWS s
  obtain ⟨t, ht⟩ := exists_append_dropWhile isWS (s.dropWhile isWS).reverse
  have hw : s.dropWhile isWS = strip s ++ t.reverse := by
    have h2 := congrArg List.reverse ht
    simp only [List.reverse_append, List.reverse_reverse] at h2
    rw [← h2]
    rfl
  have step1 : (strip s).dropWhile isWS = strip s := by
    rcases hw2 : strip s with _ | ⟨a, v⟩
    · simp
    · have ha : isWS a = false := by
        apply head_false_of_dropWhile_fix isWS a (v ++ t.reverse)
        rw [hw2] at hw
        rw [hw] at hu_fix
        simpa using hu_fix
      simp [List.dropWhile_cons, ha]
  have step2 : (strip s).reverse.dropWhile isWS = (strip s).reverse := by
    have hrev : (strip s).reverse = ((s.dropWhile isWS).reverse).dropWhile isWS := by
      simp [strip]
    rw [hrev]
    exact dropWhile_idem isWS _
  show ((((strip s).dropWhile isWS).reverse).dropWhile isWS).reverse = strip s
  rw [step1, step2, List.reverse_reverse]

theorem lower_eq_nil (s : Str) : lower s = [] ↔ s = [] := by
  simp [lower]

/-- Unfolding equation for canonicalize. -/
theorem canonicalize_spec (f : Str) (syn : List (Str × Str)) :
    canonicalize f syn =
      if strip f = [] then strip f
      else
        match syn.find? (fun kv => decide (lower (strip f) = lower (strip kv.1))) with
        | some kv => strip kv.2
        | none => strip f := rfl

/-- Unfolding equation for canon_feature. -/
theorem canon_feature_spec (L : MigrationLogic) (f : Str) :
    L.canon_feature f =
      if strip f = [] then strip f
      else
        match L.synonyms.find? (fun kv => decide (lower (strip f) = lower (strip kv.1))) with
        | some kv => strip kv.2
        | none => (alookup L.feature_alias (lower (strip f))).getD (strip f) := rfl

theorem canonicalize_strip (f : Str) (syn : List (Str × Str)) :
    canonicalize (strip f) syn = canonicalize f syn := by
  rw [canonicalize_spec, canonicalize_spec, strip_idem]

theorem canon_feature_strip (L : MigrationLogic) (f : Str) :
    L.canon_feature (strip f) = L.canon_feature f := by
  rw [canon_feature_spec, canon_feature_spec, strip_idem]

/- ------------------------------------------------------------------ -/
/- Helper lemmas: the stable sort                                      -/
/- ------------------------------------------------------------------ -/

theorem mem_insAsc {α : Type} (le : α → α → Bool) (x : α) (l : List α) (a : α) :
    a ∈ insAsc le x l ↔ a = x ∨ a ∈ l := by
  induction l with
  | nil => simp [insAsc]
  | cons y ys ih =>
    by_cases h : le x y
    · simp only [insAsc, if_pos h, List.mem_cons]
    · simp only [insAsc, if_neg h, List.mem_cons, ih]
      tauto

theorem mem_stableSort {α : Type} (le : α → α → Bool) (l : List α) (a : α) :
    a ∈ stableSort le l ↔ a ∈ l := by
  induction l with
  | nil => simp [stableSort]
  | cons x xs ih => simp [stableSort, mem_insAsc, ih]

theorem pairwise_insAsc {α : Type} {le : α → α → Bool}
    (trans : ∀ a b c, le a b = true → le b c = true → le a c = true)
    (total : ∀ a b, le a b = true ∨ le b a = true)
    (x : α) (l : List α) (h : l.Pairwise (fun a b => le a b = true)) :
    (insAsc le x l).Pairwise (fun a b => le a b = true) := by
  induction l with
  | nil => simp [insAsc]
  | cons y ys ih =>
    rcases List.pairwise_cons.1 h with ⟨hy, hys⟩
    by_cases hxy : le x y
    · simp only [insAsc, if_pos hxy]
      refine List.pairwise_cons.2 ⟨?_, h⟩
      intro b hb
      rcases List.mem_cons.1 hb with rfl | hb
      · exact hxy
      · exact trans x y b hxy (hy b hb)
    · simp only [insAsc, if_neg hxy]
      have hyx : le y x = true := by
        rcases total x y with h1 | h1
        · exact absurd h1 hxy
        · exact h1
      refine List.pairwise_cons.2 ⟨?_, ih hys⟩
      intro b hb
      rcases (mem_insAsc le x ys b).1 hb with rfl | hb
      · exact hyx
      · exact hy b hb

theorem pairwise_stableSort {α : Type} {le : α → α → Bool}
    (trans : ∀ a b c, le a b = true → le b c = true → le a c = true)
    (total : ∀ a b, le a b = true ∨ le b a = true)
    (l : List α) :
    (stableSort le l).Pairwise (fun a b => le a b = true) := by
  induction l with
  | nil => simp [stableSort]
  | cons x xs ih => exact pairwise_insAsc trans total x _ ih

theorem head_min_stableSort {α : Type} {le : α → α → Bool}
    (trans : ∀ a b c, le a b = true → le b c = true → le a c = true)
    (total : ∀ a b, le a b = true ∨ le b a = true)
    {l : List α} {w : α} {t : List α}
    (h : stableSort le l = w :: t) (c : α) (hc : c ∈ l) : le w c = true := by
  have hp := pairwise_stableSort trans total l
  rw [h] at hp
  have hc2 : c ∈ w :: t := by
    rw [← h, mem_stableSort]
    exact hc
  rcases List.mem_cons.1 hc2 with rfl | hc3
  · rcases total c c with h1 | h1 <;> exact h1
  · exact (List.pairwise_cons.1 hp).1 c hc3

theorem insAsc_eq_append {α : Type} (le : α → α → Bool) (x : α) (l : List α) :
    ∃ l1 l2, l = l1 ++ l2 ∧ insAsc le x l = l1 ++ x :: l2 := by
  induction l with
  | nil => exact ⟨[], [], rfl, rfl⟩
  | cons y ys ih =>
    by_cases h : le x y
    · exact ⟨[], y :: ys, rfl, by simp [insAsc, h]⟩
    · obtain ⟨l1, l2, h1, h2⟩ := ih
      exact ⟨y :: l1, l2, by simp [h1], by simp [insAsc, h, h2]⟩

theorem sublist_insAsc {α : Type} (le : α → α → Bool) (x : α) {s l : List α}
    (h : s.Sublist l) : s.Sublist (insAsc le x l) := by
  obtain ⟨l1, l2, h1, h2⟩ := insAsc_eq_append le x l
  rw [h2]
  subst h1
  exact h.trans ((List.sublist_cons_self x l2).append_left l1)

theorem pair_sublist_insAsc {α : Type} (le : α → α → Bool) {a b : α}
    (hab : le a b = true) {l : List α} (hb : b ∈ l) :
    [a, b].Sublist (insAsc le a l) := by
  induction l with
  | nil => cases hb
  | cons y ys ih =>
    by_cases h : le a y
    · simp only [insAsc, if_pos h]
      exact (List.singleton_sublist.2 hb).cons₂ a
    · simp only [insAsc, if_neg h]
      rcases List.mem_cons.1 hb with rfl | hb2
      · exact absurd hab h
      · exact (ih hb2).cons y

theorem stableSort_tie_sublist {α : Type} {le : α → α → Bool}
    {a b : α} (hab : le a b = true) {l : List α}
    (h : [a, b].Sublist l) : [a, b].Sublist (stableSort le l) := by
  induction l with
  | nil => cases h
  | cons x xs ih =>
    cases h with
    | cons _ h2 => exact sublist_insAsc le x (ih h2)
    | cons₂ _ h2 =>
      have hb : b ∈ stableSort le xs :=
        (mem_stableSort le xs b).2 (List.singleton_sublist.1 h2)
      exact pair_sublist_insAsc le hab hb

theorem mem_pysorted (l : List Str) (x : Str) : x ∈ pysorted l ↔ x ∈ l :=
  mem_stableSort strle l x

/- ------------------------------------------------------------------ -/
/- Helper lemmas: Frac                                                 -/
/- ------------------------------------------------------------------ -/

theorem Frac.ble_refl (x : Frac) : Frac.ble x x = true := by
  simp [Frac.ble]

theorem Frac.ble_total (x y : Frac) : Frac.ble x y = true ∨ Frac.ble y x = true := by
  simp only [Frac.ble, decide_eq_true_eq]
  exact Int.le_total (x.num * y.den) (y.num * x.den)

theorem Frac.ble_trans {x y z : Frac} (h1 : Frac.ble x y = true) (h2 : Frac.ble y z = true) :
    Frac.ble x z = true := by
  simp only [Frac.ble, decide_eq_true_eq] at h1 h2 ⊢
  have hy := y.den_pos
  have h1' := mul_le_mul_of_nonneg_right h1 (le_of_lt z.den_pos)
  have h2' := mul_le_mul_of_nonneg_right h2 (le_of_lt x.den_pos)
  have hchain : x.num * z.den * y.den ≤ z.num * x.den * y.den := by
    calc x.num * z.den * y.den = x.num * y.den * z.den := by ring
    _ ≤ y.num * x.den * z.den := h1'
    _ = y.num * z.den * x.den := by ring
    _ ≤ z.num * y.den * x.den := h2'
    _ = z.num * x.den * y.den := by ring
  exact le_of_mul_le_mul_right hchain hy

/- ------------------------------------------------------------------ -/
/- Helper lemmas: the candidate order                                  -/
/- ------------------------------------------------------------------ -/

theorem candLe_iff (a b : Cand) : candLe a b = true ↔
    (a.extras_count < b.extras_count) ∨
    (a.extras_count = b.extras_count ∧
      (a.bloat_weighted < b.bloat_weighted ∨
        (a.bloat_weighted = b.bloat_weighted ∧
          (b.coverage_count < a.coverage_count ∨
            (a.coverage_count = b.coverage_count ∧
              Frac.ble b.business_value_score a.business_value_score = true))))) := by
  unfold candLe
  by_cases h1 : a.extras_count = b.extras_count <;>
    by_cases h2 : a.bloat_weighted = b.bloat_weighted <;>
      by_cases h3 : a.coverage_count = b.coverage_count <;>
        simp [h1, h2, h3]

theorem candLe_trans (a b c : Cand) (h1 : candLe a b = true) (h2 : candLe b c = true) :
    candLe a c = true := by
  rw [candLe_iff] at h1 h2 ⊢
  rcases h1 with h1 | ⟨e1, h1⟩ <;> rcases h2 with h2 | ⟨e2, h2⟩
  · exact Or.inl (by omega)
  · exact Or.inl (by omega)
  · exact Or.inl (by omega)
  · right
    refine ⟨by omega, ?_⟩
    rcases h1 with h1 | ⟨f1, h1⟩ <;> rcases h2 with h2 | ⟨f2, h2⟩
    · exact Or.inl (by omega)
    · exact Or.inl (by omega)
    · exact Or.inl (by omega)
    · right
      refine ⟨by omega, ?_⟩
      rcases h1 with h1 | ⟨g1, h1⟩ <;> rcases h2 with h2 | ⟨g2, h2⟩
      · exact Or.inl (by omega)
      · exact Or.inl (by omega)
      · exact Or.inl (by omega)
      · exact Or.inr ⟨by omega, Frac.ble_trans h2 h1⟩


theorem candLe_total (a b : Cand) : candLe a b = true ∨ candLe b a = true := by
  rw [candLe_iff, candLe_iff]
  rcases Nat.lt_trichotomy a.extras_count b.extras_count with h1 | h1 | h1
  · exact Or.inl (Or.inl h1)
  · rcases Int.lt_trichotomy a.bloat_weighted b.bloat_weighted with h2 | h2 | h2
    · exact Or.inl (Or.inr ⟨h1, Or.inl h2⟩)
    · rcases Nat.lt_trichotomy a.coverage_count b.coverage_count with h3 | h3 | h3
      · exact Or.inr (Or.inr ⟨h1.symm, Or.inr ⟨h2.symm, Or.inl h3⟩⟩)
      · rcases Frac.ble_total a.business_value_score b.business_value_score with hf | hf
        · exact Or.inr (Or.inr ⟨h1.symm, Or.inr ⟨h2.symm, Or.inr ⟨h3.symm, hf⟩⟩⟩)
        · exact Or.inl (Or.inr ⟨h1, Or.inr ⟨h2, Or.inr ⟨h3, hf⟩⟩⟩)
      · exact Or.inl (Or.inr ⟨h1, Or.inr ⟨h2, Or.inl h3⟩⟩)
    · exact Or.inr (Or.inr ⟨h1.symm, Or.inl h2⟩)
  · exact Or.inr (Or.inl h1)

theorem candLe_extras_le {a b : Cand} (h : candLe a b = true) :
    a.extras_count ≤ b.extras_count := by
  rw [candLe_iff] at h
  rcases h with h | ⟨e, _⟩
  · omega
  · omega

/- ------------------------------------------------------------------ -/
/- Helper lemmas: set-as-list membership                               -/
/- ------------------------------------------------------------------ -/

theorem mem_sunion {x : Str} {a b : List Str} : x ∈ sunion a b ↔ x ∈ a ∨ x ∈ b := by
  simp only [sunion, List.mem_append, List.mem_filter, decide_eq_true_eq]
  tauto

theorem mem_sinter {x : Str} {a b : List Str} : x ∈ sinter a b ↔ x ∈ a ∧ x ∈ b := by
  simp [sinter, List.mem_filter]

theorem mem_sdiff {x : Str} {a b : List Str} : x ∈ sdiff a b ↔ x ∈ a ∧ x ∉ b := by
  simp [sdiff, List.mem_filter]

theorem mem_addOnCover (addons : List (Str × List Str)) (userF : List Str) (x : Str) :
    x ∈ addOnCover addons userF ↔ ∃ kv ∈ addons, x ∈ kv.2 ∧ x ∈ userF := by
  induction addons with
  | nil => simp [addOnCover]
  | cons kv rest ih =>
    simp only [addOnCover, mem_sunion, List.mem_filter, decide_eq_true_eq, ih,
      List.mem_cons]
    constructor
    · rintro (⟨hx, hu⟩ | ⟨kv2, hkv2, hx2, hu2⟩)
      · exact ⟨kv, Or.inl rfl, hx, hu⟩
      · exact ⟨kv2, Or.inr hkv2, hx2, hu2⟩
    · rintro ⟨kv2, (rfl | hm), hx2, hu2⟩
      · exact Or.inl ⟨hx2, hu2⟩
      · exact Or.inr ⟨kv2, hm, hx2, hu2⟩

theorem mem_foldl_sunion (l : List (Str × List Str)) (init : List Str) (x : Str) :
    x ∈ l.foldl (fun acc kv => sunion acc kv.2) init ↔
      x ∈ init ∨ ∃ kv ∈ l, x ∈ kv.2 := by
  induction l generalizing init with
  | nil => simp
  | cons kv rest ih =>
    simp only [List.foldl_cons, ih, mem_sunion, List.mem_cons]
    constructor
    · rintro ((hx | hx) | ⟨kv2, hm, hx2⟩)
      · exact Or.inl hx
      · exact Or.inr ⟨kv, Or.inl rfl, hx⟩
      · exact Or.inr ⟨kv2, Or.inr hm, hx2⟩
    · rintro (hx | ⟨kv2, (rfl | hm), hx2⟩)
      · exact Or.inl (Or.inl hx)
      · exact Or.inl (Or.inr hx2)
      · exact Or.inr ⟨kv2, hm, hx2⟩

theorem mem_allPlanFeatures (L : MigrationLogic) (x : Str) :
    x ∈ allPlanFeatures L ↔ ∃ kv ∈ L.plan_definitions, x ∈ kv.2 := by
  simp [allPlanFeatures, mem_foldl_sunion]

/- ------------------------------------------------------------------ -/
/- Helper lemmas: merged extras                                        -/
/- ------------------------------------------------------------------ -/

theorem mergeExtrasAux_elements (xs : List Str) :
    ∀ (seen : List Str) (y : Str), y ∈ mergeExtrasAux seen xs → ∃ x ∈ xs, y = strip x := by
  induction xs with
  | nil => intro seen y h; cases h
  | cons x rest ih =>
    intro seen y h
    by_cases hc : lower (strip x) ≠ [] ∧ lower (strip x) ∉ seen
    · simp only [mergeExtrasAux, if_pos hc] at h
      rcases List.mem_cons.1 h with rfl | h2
      · exact ⟨x, List.mem_cons_self x rest, rfl⟩
      · obtain ⟨x2, hx2, hy⟩ := ih _ _ h2
        exact ⟨x2, List.mem_cons_of_mem x hx2, hy⟩
    · simp only [mergeExtrasAux, if_neg hc] at h
      obtain ⟨x2, hx2, hy⟩ := ih _ _ h
      exact ⟨x2, List.mem_cons_of_mem x hx2, hy⟩

theorem mergeExtrasAux_rep (xs : List Str) :
    ∀ (seen : List Str) (x : Str), x ∈ xs → lower (strip x) ≠ [] →
      (∃ y ∈ mergeExtrasAux seen xs, lower (strip y) = lower (strip x)) ∨
        lower (strip x) ∈ seen := by
  induction xs with
  | nil => intro seen x h; cases h
  | cons x0 rest ih =>
    intro seen x hx hne
    by_cases hc : lower (strip x0) ≠ [] ∧ lower (strip x0) ∉ seen
    · rcases List.mem_cons.1 hx with rfl | hx2
      · left
        refine ⟨strip x, ?_, by rw [strip_idem]⟩
        simp only [mergeExtrasAux, if_pos hc]
        exact List.mem_cons_self _ _
      · rcases ih (lower (strip x0) :: seen) x hx2 hne with ⟨y, hy, he⟩ | hs
        · left
          refine ⟨y, ?_, he⟩
          simp only [mergeExtrasAux, if_pos hc]
          exact List.mem_cons_of_mem _ hy
        · rcases List.mem_cons.1 hs with heq | hs2
          · left
            refine ⟨strip x0, ?_, by rw [strip_idem, ← heq]⟩
            simp only [mergeExtrasAux, if_pos hc]
            exact List.mem_cons_self _ _
          · right
            exact hs2
    · rcases List.mem_cons.1 hx with rfl | hx2
      · right
        rcases not_and_or.1 hc with h | h
        · exact absurd hne h
        · simpa using h
      · rcases ih seen x hx2 hne with ⟨y, hy, he⟩ | hs
        · left
          refine ⟨y, ?_, he⟩
          simp only [mergeExtrasAux, if_neg hc]
          exact hy
        · right
          exact hs

theorem mergeExtras_elements {xs : List Str} {y : Str} (h : y ∈ mergeExtras xs) :
    ∃ x ∈ xs, y = strip x :=
  mergeExtrasAux_elements xs [] y h

theorem mergeExtras_rep {xs : List Str} {x : Str} (hx : x ∈ xs)
    (hne : lower (strip x) ≠ []) :
    ∃ y ∈ mergeExtras xs, lower (strip y) = lower (strip x) := by
  rcases mergeExtrasAux_rep xs [] x hx hne with h | h
  · exact h
  · cases h

/- ------------------------------------------------------------------ -/
/- Helper lemmas: classification and the pipeline                      -/
/- ------------------------------------------------------------------ -/

theorem normal_not_ga_irr (L : MigrationLogic) (feats : List Str) {x : Str}
    (h : x ∈ (L.classify feats).normal) : x ∉ L.ga_set ∧ x ∉ L.irrelevant_set := by
  simp only [MigrationLogic.classify, List.mem_filter, Bool.and_eq_true,
    decide_eq_true_eq] at h
  exact h.2

theorem nodup_candidatesOf (L : MigrationLogic) (acct : Acct)
    (hkeys : (L.plan_definitions.map Prod.fst).Nodup) :
    (candidatesOf L acct).Nodup := by
  unfold candidatesOf MigrationLogic.get_relevant_plans
  cases acct.subtype with
  | none => exact List.nodup_nil
  | some st =>
    cases hfind : SUBTYPE_KEYWORD_MAP.find? (fun kv => substrOf kv.1 (lower st)) with
    | none => simp only [hfind]; exact List.nodup_nil
    | some kv =>
      simp only [hfind]
      split
      · exact List.nodup_nil
      · exact hkeys.filter _

theorem map_plan_analyses (L : MigrationLogic) (acct : Acct) :
    (analysesOf L acct).map Cand.plan = candidatesOf L acct := by
  unfold analysesOf
  rw [List.map_map]
  have hid : ∀ c ∈ candidatesOf L acct,
      (Cand.plan ∘ (evalCand L (userFeaturesOf L acct) (synonymHitsOf L acct).length
        (addOnCover L.add_on_plans (userFeaturesOf L acct))
        (appliedAddOns L (userFeaturesOf L acct)))) c = id c := fun c _ => rfl
  rw [List.map_congr_left hid, List.map_id]

/- ------------------------------------------------------------------ -/
/- Helper lemmas: inverting recommend                                  -/
/- ------------------------------------------------------------------ -/

theorem recommend_eq_noMatch (L : MigrationLogic) (acct : Acct)
    (hc : candidatesOf L acct = []) :
    L.recommend acct = Result.noMatch (noMatchResult L acct) := by
  unfold MigrationLogic.recommend
  rw [if_pos hc]

theorem recommend_eq_noValid (L : MigrationLogic) (acct : Acct)
    (hc : candidatesOf L acct ≠ []) (hsv : sortedValidOf L acct = []) :
    L.recommend acct = Result.noValid (noValidResult L acct) := by
  unfold MigrationLogic.recommend
  rw [if_neg hc, hsv]

theorem recommend_eq_success (L : MigrationLogic) (acct : Acct) {w : Cand} {t : List Cand}
    (hc : candidatesOf L acct ≠ []) (hsv : sortedValidOf L acct = w :: t) :
    L.recommend acct = Result.success (successResult L acct w) := by
  unfold MigrationLogic.recommend
  rw [if_neg hc, hsv]

theorem recommend_success_inv {L : MigrationLogic} {acct : Acct} {r : SuccessR}
    (h : L.recommend acct = Result.success r) :
    ∃ w t, sortedValidOf L acct = w :: t ∧ r = successResult L acct w := by
  by_cases hc : candidatesOf L acct = []
  · rw [recommend_eq_noMatch L acct hc] at h
    exact Result.noConfusion h
  · rcases hsv : sortedValidOf L acct with _ | ⟨w, t⟩
    · rw [recommend_eq_noValid L acct hc hsv] at h
      exact Result.noConfusion h
    · rw [recommend_eq_success L acct hc hsv] at h
      exact ⟨w, t, rfl, (Result.success.inj h).symm⟩

theorem recommend_noValid_inv {L : MigrationLogic} {acct : Acct} {r : NoValidR}
    (h : L.recommend acct = Result.noValid r) :
    candidatesOf L acct ≠ [] ∧ sortedValidOf L acct = [] ∧ r = noValidResult L acct := by
  by_cases hc : candidatesOf L acct = []
  · rw [recommend_eq_noMatch L acct hc] at h
    exact Result.noConfusion h
  · rcases hsv : sortedValidOf L acct with _ | ⟨w, t⟩
    · rw [recommend_eq_noValid L acct hc hsv] at h
      exact ⟨hc, rfl, (Result.noValid.inj h).symm⟩
    · rw [recommend_eq_success L acct hc hsv] at h
      exact Result.noConfusion h

theorem recommend_noMatch_inv {L : MigrationLogic} {acct : Acct} {r : NoMatchR}
    (h : L.recommend acct = Result.noMatch r) :
    candidatesOf L acct = [] ∧ r = noMatchResult L acct := by
  by_cases hc : candidatesOf L acct = []
  · rw [recommend_eq_noMatch L acct hc] at h
    exact ⟨hc, (Result.noMatch.inj h).symm⟩
  · rcases hsv : sortedValidOf L acct with _ | ⟨w, t⟩
    · rw [recommend_eq_noValid L acct hc hsv] at h
      exact Result.noConfusion h
    · rw [recommend_eq_success L acct hc hsv] at h
      exact Result.noConfusion h

theorem unrecognized_filter_eq (L : MigrationLogic) (userF : List Str) :
    userF.filter (fun f => decide (f ∉ allPlanFeatures L)) = specUnrecognized L userF := by
  unfold specUnrecognized
  apply List.filter_congr
  intro x hx
  rw [decide_eq_decide]
  rw [mem_allPlanFeatures]
  push_neg
  rfl

/- ------------------------------------------------------------------ -/
/- Claim theorems                                                      -/
/- ------------------------------------------------------------------ -/

/-- C1: whenever recommend returns a Success result its winning
candidate carries an empty bloat_costly list, and whenever
apply_human_override returns APPROVED_BY_CSM the computed paid bloat is
empty — no approved outcome can introduce costly bloat. -/
theorem c1_red_line :
    (∀ (L : MigrationLogic) (acct : Acct) (r : SuccessR),
        L.recommend acct = Result.success r → r.bloat_costly = []) ∧
    (∀ (L : MigrationLogic) (plan_name : Str) (extras_list user_features : List Str)
        (r : ApprovedR),
        L.apply_human_override plan_name extras_list user_features = OvResult.approved r →
        r.bloat_costly = [] ∧
        overridePaidBloat L ((alookup L.plan_definitions plan_name).getD [])
          extras_list user_features = []) := by
  constructor
  · intro L acct r h
    obtain ⟨w, t, hsv, hr⟩ := recommend_success_inv h
    have hw : w ∈ validOf L acct := by
      have hmem : w ∈ sortedValidOf L acct := by
        rw [hsv]
        exact List.mem_cons_self _ _
      rwa [sortedValidOf, mem_stableSort] at hmem
    simp only [validOf] at hw
    have hlen : w.bloat_costly.length = 0 := by
      have := (List.mem_filter.1 hw).2
      simpa using this
    rw [hr]
    show w.bloat_costly = []
    exact List.length_eq_zero.1 hlen
  · intro L p e u r h
    unfold MigrationLogic.apply_human_override overrideCore at h
    by_cases hp : overridePaidBloat L ((alookup L.plan_definitions p).getD []) e u ≠ []
    · rw [if_pos hp] at h
      exact OvResult.noConfusion h
    · rw [if_neg hp] at h
      push_neg at hp
      have hr := (OvResult.approved.inj h).symm
      rw [hr]
      exact ⟨hp, hp⟩

/-- C1 witness: a concrete Success recommendation and a concrete
approved override, with the red-line conclusions extracted through the
theorem. -/
theorem c1_red_line_witness :
    (Eplain.recommend acctPlain).bloatCostlyOf = some [] ∧
    (Eplain.apply_human_override (S "Bunkering Base") [] [S "portStateControl"]).bloatCostlyOf =
      some [] := by
  constructor
  · rcases h : Eplain.recommend acctPlain with r | r | r
    · have hs : (Eplain.recommend acctPlain).isSuccess = true := by decide
      rw [h] at hs
      exact Bool.noConfusion hs
    · have hs : (Eplain.recommend acctPlain).isSuccess = true := by decide
      rw [h] at hs
      exact Bool.noConfusion hs
    · have := c1_red_line.1 Eplain acctPlain r h
      simp [Result.bloatCostlyOf, this]
  · rcases h : Eplain.apply_human_override (S "Bunkering Base") [] [S "portStateControl"]
      with r | r
    · have hs : (Eplain.apply_human_override (S "Bunkering Base") []
          [S "portStateControl"]).isApproved = true := by decide
      rw [h] at hs
      exact Bool.noConfusion hs
    · have := c1_red_line.2 Eplain (S "Bunkering Base") [] [S "portStateControl"] r h
      simp [OvResult.bloatCostlyOf, this.1]

/-- C4 counterexample: with the synonym table a to b, b to c, the value
b of the first entry is itself a key, so canonicalizing the string a
twice gives c, not b — idempotence fails for this synonym table,
refuting the claim quantified over every synonym table. -/
theorem c4_counterexample :
    canonicalize (canonicalize (S "a") chainSyn) chainSyn ≠ canonicalize (S "a") chainSyn := by
  decide

/-- C4 (amended): canonicalize is idempotent for every synonym table
whose values are themselves canonical (each mapped value canonicalizes
to its own trimmed form — true of the default table), and canon_feature
is idempotent whenever the synonym values and the alias-table values are
fixed points of canon_feature. -/
theorem c4_idempotence :
    (∀ (syn : List (Str × Str)) (f : Str),
        (∀ kv ∈ syn, canonicalize kv.2 syn = strip kv.2) →
        canonicalize (canonicalize f syn) syn = canonicalize f syn) ∧
    (∀ (L : MigrationLogic) (f : Str),
        (∀ kv ∈ L.synonyms, L.canon_feature kv.2 = strip kv.2) →
        (∀ kv ∈ L.feature_alias, L.canon_feature kv.2 = kv.2) →
        L.canon_feature (L.canon_feature f) = L.canon_feature f) := by
  constructor
  · intro syn f hfix
    rw [canonicalize_spec f syn]
    by_cases hs : strip f = []
    · rw [if_pos hs, hs]
      rfl
    · rw [if_neg hs]
      cases hfind : syn.find? (fun kv => decide (lower (strip f) = lower (strip kv.1))) with
      | some kv =>
        have hkv : kv ∈ syn := List.mem_of_find?_eq_some hfind
        rw [canonicalize_strip]
        exact hfix kv hkv
      | none =>
        rw [canonicalize_strip, canonicalize_spec f syn, if_neg hs, hfind]
  · intro L f h1 h2
    rw [canon_feature_spec L f]
    by_cases hs : strip f = []
    · rw [if_pos hs, hs]
      rfl
    · rw [if_neg hs]
      cases hfind : L.synonyms.find?
          (fun kv => decide (lower (strip f) = lower (strip kv.1))) with
      | some kv =>
        have hkv : kv ∈ L.synonyms := List.mem_of_find?_eq_some hfind
        rw [canon_feature_strip]
        exact h1 kv hkv
      | none =>
        cases halk : alookup L.feature_alias (lower (strip f)) with
        | none =>
          simp only [Option.getD_none]
          rw [canon_feature_strip, canon_feature_spec L f, if_neg hs, hfind, halk]
          rfl
        | some v =>
          simp only [Option.getD_some]
          have halk2 : (L.feature_alias.find?
              (fun kv => decide (kv.1 = lower (strip f)))).map Prod.snd = some v := halk
          obtain ⟨kv0, hfind0, hsnd⟩ := Option.map_eq_some'.1 halk2
          have hkv0 : kv0 ∈ L.feature_alias := List.mem_of_find?_eq_some hfind0
          rw [← hsnd]
          exact h2 kv0 hkv0

/-- C4 witness: the amended idempotence applied to the default synonym
table and a default-synonym engine, at the display name Port Control. -/
theorem c4_idempotence_witness :
    canonicalize (canonicalize (S "Port Control") DEFAULT_SYNONYMS) DEFAULT_SYNONYMS =
      canonicalize (S "Port Control") DEFAULT_SYNONYMS ∧
    Eplain.canon_feature (Eplain.canon_feature (S "Port Control")) =
      Eplain.canon_feature (S "Port Control") :=
  ⟨c4_idempotence.1 DEFAULT_SYNONYMS (S "Port Control") (by decide),
   c4_idempotence.2 Eplain (S "Port Control") (by decide) (by decide)⟩

/-- C5 (code bug): parse_feature_list never raises in the model and
handles NaN, parseable list strings, CSV fallback and garbage as
claimed, but a native Python list with two or more elements comes back
as the empty list, not as the same list: pd.isna on a multi-element
list yields an elementwise array whose truth test raises ValueError,
which the permissive handler catches before the dead isinstance-list
branch.  Only singleton lists survive. -/
theorem c5_parse_feature_list :
    parse_feature_list (PyVal.vList [S "Port Control", S "simpleFeature"]) = [] ∧
    parse_feature_list (PyVal.vList [S "Port Control", S "simpleFeature"]) ≠
      [S "Port Control", S "simpleFeature"] ∧
    parse_feature_list (PyVal.vList [S "portStateControl"]) = [S "portStateControl"] ∧
    parse_feature_list PyVal.vNone = [] ∧
    parse_feature_list (PyVal.vStrList (S "[featA, featB]") [S "featA", S "featB"]) =
      [S "featA", S "featB"] ∧
    parse_feature_list (PyVal.vStrBad (S "featA, featB")) = [S "featA", S "featB"] ∧
    parse_feature_list (PyVal.vStrBad (S "garbage")) = [] := by
  decide

/-- C6: in every evaluated candidate row, no member of covered_features,
feature_extras or bloat_features belongs to the engine GA set or
Irrelevant set — both sides are classified before any set comparison. -/
theorem c6_ga_irrelevant_never_compared (L : MigrationLogic) (acct : Acct) (c : Cand)
    (hc : c ∈ analysesOf L acct) (x : Str)
    (hx : x ∈ c.covered_features ∨ x ∈ c.feature_extras ∨ x ∈ c.bloat_features) :
    x ∉ L.ga_set ∧ x ∉ L.irrelevant_set := by
  simp only [analysesOf] at hc
  obtain ⟨plan, hplan, rfl⟩ := List.mem_map.1 hc
  rcases hx with hx | hx | hx
  · have hx2 : x ∈ pysorted (sinter (L.classify (userFeaturesOf L acct)).normal
        (L.classify (effectiveOf L (userFeaturesOf L acct) plan)).normal) := hx
    have hx3 := (mem_sinter.1 ((mem_pysorted _ x).1 hx2)).1
    exact normal_not_ga_irr L _ hx3
  · have hx2 : x ∈ pysorted (sdiff (L.classify (userFeaturesOf L acct)).normal
        (L.classify (effectiveOf L (userFeaturesOf L acct) plan)).normal) := hx
    have hx3 := (mem_sdiff.1 ((mem_pysorted _ x).1 hx2)).1
    exact normal_not_ga_irr L _ hx3
  · have hx2 : x ∈ pysorted (sdiff (L.classify (effectiveOf L (userFeaturesOf L acct) plan)).normal
        (L.classify (userFeaturesOf L acct)).normal) := hx
    have hx3 := (mem_sdiff.1 ((mem_pysorted _ x).1 hx2)).1
    exact normal_not_ga_irr L _ hx3

/-- C6 witness: in a concrete evaluation where the plan and the account
share the GA feature weatherLayer, that feature does not appear among
the covered features of the evaluated candidate. -/
theorem c6_witness :
    S "weatherLayer" ∈ Ega.ga_set ∧
    (match analysesOf Ega acctGa with
      | c :: _ => S "weatherLayer" ∉ c.covered_features
      | [] => False) := by
  refine ⟨by decide, ?_⟩
  rcases hh : analysesOf Ega acctGa with _ | ⟨c, rest⟩
  · have hlen : (analysesOf Ega acctGa).length = 1 := by decide
    rw [hh] at hlen
    exact absurd hlen (by simp)
  · have hc : c ∈ analysesOf Ega acctGa := by
      rw [hh]
      exact List.mem_cons_self _ _
    simp only
    intro hmem
    have h := c6_ga_irrelevant_never_compared Ega acctGa c hc (S "weatherLayer") (Or.inl hmem)
    exact h.1 (by decide)

/-- C7: a feature whose canonical form lies in both the GA set and the
Irrelevant set is always bucketed as GA and never as Irrelevant, and no
feature ever lands in both buckets. -/
theorem c7_ga_precedence :
    (∀ (L : MigrationLogic) (feats : List Str) (f : Str), f ∈ feats →
        canonicalize f L.synonyms ∈ L.ga_set →
        canonicalize f L.synonyms ∈ L.irrelevant_set →
        canonicalize f L.synonyms ∈ (L.classify feats).ga ∧
          canonicalize f L.synonyms ∉ (L.classify feats).irrelevant) ∧
    (∀ (L : MigrationLogic) (feats : List Str) (x : Str),
        x ∈ (L.classify feats).ga → x ∉ (L.classify feats).irrelevant) := by
  constructor
  · intro L feats f hf hga _hirr
    constructor
    · simp only [MigrationLogic.classify, List.mem_filter, decide_eq_true_eq]
      exact ⟨List.mem_dedup.2 (List.mem_map.2 ⟨f, hf, rfl⟩), hga⟩
    · simp only [MigrationLogic.classify, List.mem_filter, Bool.and_eq_true,
        decide_eq_true_eq]
      rintro ⟨-, hnot, -⟩
      exact hnot hga
  · intro L feats x hga
    simp only [MigrationLogic.classify, List.mem_filter, Bool.and_eq_true,
      decide_eq_true_eq] at hga ⊢
    rintro ⟨-, hnot, -⟩
    exact hnot hga.2

/-- C7 witness: activitySequences appears in both configured lists, and
classifying it on a default engine buckets it as GA, not Irrelevant. -/
theorem c7_ga_precedence_witness :
    S "activitySequences" ∈ (Eplain.classify [S "activitySequences"]).ga ∧
    S "activitySequences" ∉ (Eplain.classify [S "activitySequences"]).irrelevant := by
  have he : canonicalize (S "activitySequences") Eplain.synonyms = S "activitySequences" := by
    decide
  have h := c7_ga_precedence.1 Eplain [S "activitySequences"] (S "activitySequences")
    (by decide) (by rw [he]; decide) (by rw [he]; decide)
  rw [he] at h
  exact h

/-- C8: a null subtype, a subtype matching no keyword, or a family
keyword contained in no plan name each yield an empty candidate list,
and an empty candidate list makes recommend return — as a value, not an
exception — the NO_MATCHING_PLANS result with zeroed numeric fields,
empty lists, the Manual Review placeholder and a nonempty reason. -/
theorem c8_no_matching_plans :
    (∀ (L : MigrationLogic), L.get_relevant_plans none = []) ∧
    (∀ (L : MigrationLogic) (st : Str),
        (∀ kv ∈ SUBTYPE_KEYWORD_MAP, substrOf kv.1 (lower st) = false) →
        L.get_relevant_plans (some st) = []) ∧
    (∀ (L : MigrationLogic) (st : Str) (kv : Str × Str),
        SUBTYPE_KEYWORD_MAP.find? (fun kv => substrOf kv.1 (lower st)) = some kv →
        (∀ p ∈ L.plan_definitions.map Prod.fst, substrOf (lower kv.2) (lower p) = false) →
        L.get_relevant_plans (some st) = []) ∧
    (∀ (L : MigrationLogic) (acct : Acct),
        L.get_relevant_plans acct.subtype = [] →
        L.recommend acct = Result.noMatch (noMatchResult L acct) ∧
        (noMatchResult L acct).bloat_score = 0 ∧
        (noMatchResult L acct).extras_count = 0 ∧
        (noMatchResult L acct).migration_confidence = Frac.ofInt 0 ∧
        (noMatchResult L acct).covered_features = [] ∧
        (noMatchResult L acct).extras = [] ∧
        (noMatchResult L acct).bloat_features = [] ∧
        (noMatchResult L acct).all_candidates = [] ∧
        (noMatchResult L acct).recommended_plan = S "Manual Review" ∧
        (noMatchResult L acct).reason ≠ []) := by
  refine ⟨fun L => rfl, ?_, ?_, ?_⟩
  · intro L st hnone
    have hfind : SUBTYPE_KEYWORD_MAP.find? (fun kv => substrOf kv.1 (lower st)) = none := by
      rw [List.find?_eq_none]
      intro kv hkv
      simp [hnone kv hkv]
    show (match SUBTYPE_KEYWORD_MAP.find? (fun kv => substrOf kv.1 (lower st)) with
      | none => ([] : List Str)
      | some kv =>
        if kv.2 = [] then []
        else (L.plan_definitions.map Prod.fst).filter
          (fun p => substrOf (lower kv.2) (lower p))) = []
    rw [hfind]
  · intro L st kv hfind hplans
    show (match SUBTYPE_KEYWORD_MAP.find? (fun kv => substrOf kv.1 (lower st)) with
      | none => ([] : List Str)
      | some kv =>
        if kv.2 = [] then []
        else (L.plan_definitions.map Prod.fst).filter
          (fun p => substrOf (lower kv.2) (lower p))) = []
    rw [hfind]
    show (if kv.2 = [] then ([] : List Str)
      else (L.plan_definitions.map Prod.fst).filter
        (fun p => substrOf (lower kv.2) (lower p))) = []
    split
    · rfl
    · rw [List.filter_eq_nil_iff]
      intro p hp
      simp [hplans p hp]
  · intro L acct hrel
    have hc : candidatesOf L acct = [] := hrel
    refine ⟨recommend_eq_noMatch L acct hc, rfl, rfl, rfl, rfl, rfl, rfl, rfl, rfl, ?_⟩
    intro hcontra
    have h1 : S "No plans found for subtype '" ++ subtypeRepr acct.subtype ++ S "'" = [] :=
      hcontra
    rcases List.append_eq_nil.1 h1 with ⟨h2, -⟩
    rcases List.append_eq_nil.1 h2 with ⟨h3, -⟩
    exact absurd h3 (by decide)

/-- C8 witness: a concrete engine and account with an unmapped subtype,
run through the fourth part of the theorem. -/
theorem c8_no_matching_plans_witness :
    Ex.recommend acctUnmapped = Result.noMatch (noMatchResult Ex acctUnmapped) ∧
    (noMatchResult Ex acctUnmapped).extras_count = 0 ∧
    (noMatchResult Ex acctUnmapped).reason ≠ [] := by
  have h := c8_no_matching_plans.2.2.2 Ex acctUnmapped (by decide)
  exact ⟨h.1, h.2.2.1, h.2.2.2.2.2.2.2.2.2⟩

/-- C9 counterexample: with an unmapped subtype the NO_MATCHING_PLANS
result reports the whole canonicalized user feature set as
unrecognized_features, including the feature x that does appear in a
catalog plan — refuting the claim that unrecognized_features contains
exactly the features absent from every plan, for all statuses. -/
theorem c9_counterexample :
    (Ex.recommend acctUnmapped).unrecognizedOf = [S "x"] ∧
    S "x" ∈ allPlanFeatures Ex := by
  decide

/-- C9 (amended): in Success and No Valid Plans results
unrecognized_features is exactly the sorted list of canonicalized user
features absent from every plan of the catalog; in NO_MATCHING_PLANS
results it is instead the whole canonicalized user feature set,
unfiltered. -/
theorem c9_unrecognized_features (L : MigrationLogic) (acct : Acct) :
    (∀ r, L.recommend acct = Result.success r →
        r.unrecognized_features = pysorted (specUnrecognized L (userFeaturesOf L acct))) ∧
    (∀ r, L.recommend acct = Result.noValid r →
        r.unrecognized_features = pysorted (specUnrecognized L (userFeaturesOf L acct))) ∧
    (∀ r, L.recommend acct = Result.noMatch r →
        r.unrecognized_features = userFeaturesOf L acct) := by
  refine ⟨?_, ?_, ?_⟩
  · intro r h
    obtain ⟨w, t, hsv, hr⟩ := recommend_success_inv h
    rw [hr]
    show pysorted ((userFeaturesOf L acct).filter (fun f => decide (f ∉ allPlanFeatures L))) = _
    rw [unrecognized_filter_eq]
  · intro r h
    obtain ⟨-, -, hr⟩ := recommend_noValid_inv h
    rw [hr]
    show pysorted ((userFeaturesOf L acct).filter (fun f => decide (f ∉ allPlanFeatures L))) = _
    rw [unrecognized_filter_eq]
  · intro r h
    obtain ⟨-, hr⟩ := recommend_noMatch_inv h
    rw [hr]
    rfl

/-- C9 witness: the amended characterization applied to a concrete
Success run. -/
theorem c9_unrecognized_features_witness :
    (Erank.recommend acctPlain).unrecognizedOf =
      pysorted (specUnrecognized Erank (userFeaturesOf Erank acctPlain)) := by
  rcases h : Erank.recommend acctPlain with r | r | r
  · have hs : (Erank.recommend acctPlain).isSuccess = true := by decide
    rw [h] at hs
    exact Bool.noConfusion hs
  · have hs : (Erank.recommend acctPlain).isSuccess = true := by decide
    rw [h] at hs
    exact Bool.noConfusion hs
  · have := (c9_unrecognized_features Erank acctPlain).1 r h
    simpa [Result.unrecognizedOf] using this

/-- C10: a plan name absent from the catalog raises no error in
apply_human_override — the override is computed against the empty base
feature set — and when the resulting computed paid bloat is empty the
override is approved with final_plan set to the unknown name. -/
theorem c10_unknown_plan_override (L : MigrationLogic) (p : Str) (e u : List Str)
    (h : alookup L.plan_definitions p = none) :
    L.apply_human_override p e u = overrideCore L p [] e u ∧
    (overridePaidBloat L [] e u = [] →
        (L.apply_human_override p e u).isApproved = true ∧
        (L.apply_human_override p e u).finalPlanOf = some p) := by
  have h1 : L.apply_human_override p e u = overrideCore L p [] e u := by
    unfold MigrationLogic.apply_human_override
    rw [h]
    rfl
  refine ⟨h1, fun hp => ?_⟩
  rw [h1]
  unfold overrideCore
  rw [if_neg (by simp [hp])]
  exact ⟨rfl, rfl⟩

/-- C10 witness: overriding to the nonexistent plan Ghost Plan with no
extras and no user features is approved with that plan name. -/
theorem c10_unknown_plan_override_witness :
    (Eplain.apply_human_override (S "Ghost Plan") [] []).isApproved = true ∧
    (Eplain.apply_human_override (S "Ghost Plan") [] []).finalPlanOf =
      some (S "Ghost Plan") :=
  (c10_unknown_plan_override Eplain (S "Ghost Plan") [] [] (by decide)).2 (by decide)

/-- C2: a Success recommendation picks the head of the stable sort of
the valid candidates under the key (extras count ascending, weighted
bloat ascending, coverage descending, business value descending); the
head is key-minimal over the valid candidates, so a valid candidate with
strictly more feature extras than some other valid candidate is never
the recommended plan; and key-tied candidates keep their original
catalog order through the sort. -/
theorem c2_ranking (L : MigrationLogic) (acct : Acct) (r : SuccessR)
    (hkeys : (L.plan_definitions.map Prod.fst).Nodup)
    (h : L.recommend acct = Result.success r) :
    (∃ w t, sortedValidOf L acct = w :: t ∧ r.recommended_plan = w.plan ∧
        ∀ c ∈ validOf L acct, candLe w c = true) ∧
    (∀ a ∈ validOf L acct, ∀ b ∈ validOf L acct,
        a.extras_count < b.extras_count → r.recommended_plan ≠ b.plan) ∧
    (∀ a b : Cand, candLe a b = true → candLe b a = true →
        [a, b].Sublist (validOf L acct) → [a, b].Sublist (sortedValidOf L acct)) := by
  obtain ⟨w, t, hsv, hr⟩ := recommend_success_inv h
  subst hr
  have hsv' : stableSort candLe (validOf L acct) = w :: t := hsv
  have hmin : ∀ c ∈ validOf L acct, candLe w c = true := fun c hc =>
    head_min_stableSort candLe_trans candLe_total hsv' c hc
  have hplan : (successResult L acct w).recommended_plan = w.plan := rfl
  refine ⟨⟨w, t, hsv, hplan, hmin⟩, ?_, ?_⟩
  · intro a ha b hb hlt hpb
    have hle : w.extras_count ≤ a.extras_count := candLe_extras_le (hmin a ha)
    have hwplan : w.plan = b.plan := by rw [← hplan, hpb]
    have hwvalid : w ∈ validOf L acct := by
      have hmem : w ∈ sortedValidOf L acct := by
        rw [hsv]
        exact List.mem_cons_self _ _
      rwa [sortedValidOf, mem_stableSort] at hmem
    have hnodup : ((validOf L acct).map Cand.plan).Nodup := by
      have h1 := map_plan_analyses L acct
      have h2 := nodup_candidatesOf L acct hkeys
      have h3 : (validOf L acct).Sublist (analysesOf L acct) := by
        simp only [validOf]
        exact List.filter_sublist _
      have h4 := h3.map Cand.plan
      rw [h1] at h4
      exact h2.sublist h4
    have hwb : w = b := List.inj_on_of_nodup_map hnodup hwvalid hb hwplan
    rw [hwb] at hle
    omega
  · intro a b hab _hba hsub
    exact stableSort_tie_sublist hab hsub

/-- C2 witness: in the two-plan ranking scenario from the repository
tests, the theorem yields the recommendation Bunkering Plan B. -/
theorem c2_ranking_witness :
    (Erank.recommend acctPlain).planOf = some (S "Bunkering Plan B") := by
  rcases h : Erank.recommend acctPlain with r | r | r
  · have hs : (Erank.recommend acctPlain).isSuccess = true := by decide
    rw [h] at hs
    exact Bool.noConfusion hs
  · have hs : (Erank.recommend acctPlain).isSuccess = true := by decide
    rw [h] at hs
    exact Bool.noConfusion hs
  · obtain ⟨⟨w, t, hsv, hplan, hmin⟩, -, -⟩ := c2_ranking Erank acctPlain r (by decide) h
    have hhead : (sortedValidOf Erank acctPlain).head?.map Cand.plan =
        some (S "Bunkering Plan B") := by decide
    rw [hsv] at hhead
    simp only [List.head?_cons, Option.map_some'] at hhead
    have hrp : r.recommended_plan = S "Bunkering Plan B" := by
      rw [hplan, Option.some.inj hhead]
    simp [Result.planOf, hrp]

/-- C3 counterexample: an add-on bundle named by the empty string is
applied (the account uses its feature x), yet the single evaluated
candidate displays an empty extras list: the dedup key of the empty
name is empty and the merge skips it, so no entry for the applied
bundle appears — refuting the claim as stated for every add-on
bundle. -/
theorem c3_counterexample :
    appliedAddOns EemptyAddon (userFeaturesOf EemptyAddon acctX) = [S ""] ∧
    (analysesOf EemptyAddon acctX).map Cand.extras = [[]] := by
  decide

/-- C3 (amended): an add-on bundle is applied exactly when the account
uses at least one of its features; the add-on cover contains exactly the
used add-on features, and the effective plan set of every candidate
evaluation is the base plan features united with that cover only (never
a whole bundle); in every evaluated candidate the displayed extras list
consists exactly of stripped feature extras not covered by add-ons and
stripped applied add-on names, and every applied bundle whose trimmed
name is nonempty has a case-insensitive representative in it. -/
theorem c3_addon_application (L : MigrationLogic) (userF : List Str)
    (hnames : (L.add_on_plans.map Prod.fst).Nodup) :
    (∀ kv ∈ L.add_on_plans, (kv.1 ∈ appliedAddOns L userF ↔ ∃ f ∈ kv.2, f ∈ userF)) ∧
    (∀ x, x ∈ addOnCover L.add_on_plans userF ↔
        x ∈ userF ∧ ∃ kv ∈ L.add_on_plans, x ∈ kv.2) ∧
    (∀ plan x, x ∈ effectiveOf L userF plan ↔
        x ∈ planRawOf L plan ∨ x ∈ addOnCover L.add_on_plans userF) ∧
    (∀ acct c, userF = userFeaturesOf L acct → c ∈ analysesOf L acct →
        (∀ kv ∈ L.add_on_plans, (∃ f ∈ kv.2, f ∈ userF) → strip kv.1 ≠ [] →
            ∃ y ∈ c.extras, lower (strip y) = lower (strip kv.1)) ∧
        (∀ y ∈ c.extras,
            (∃ z ∈ c.feature_extras, z ∉ addOnCover L.add_on_plans userF ∧ y = strip z) ∨
            (∃ kv ∈ L.add_on_plans, (∃ f ∈ kv.2, f ∈ userF) ∧ y = strip kv.1))) := by
  have happlied : ∀ kv ∈ L.add_on_plans,
      (kv.1 ∈ appliedAddOns L userF ↔ ∃ f ∈ kv.2, f ∈ userF) := by
    intro kv hkv
    constructor
    · intro hmem
      obtain ⟨kv2, hkv2, hfst⟩ := List.mem_map.1 hmem
      have hkv2m : kv2 ∈ L.add_on_plans := (List.mem_filter.1 hkv2).1
      have hany : kv2.2.any (fun f => decide (f ∈ userF)) = true := (List.mem_filter.1 hkv2).2
      have : kv2 = kv := List.inj_on_of_nodup_map hnames hkv2m hkv hfst
      rw [← this]
      simpa using hany
    · intro ⟨f, hf, hfu⟩
      apply List.mem_map.2
      refine ⟨kv, List.mem_filter.2 ⟨hkv, ?_⟩, rfl⟩
      simp only [List.any_eq_true, decide_eq_true_eq]
      exact ⟨f, hf, hfu⟩
  refine ⟨happlied, ?_, ?_, ?_⟩
  · intro x
    rw [mem_addOnCover]
    constructor
    · rintro ⟨kv, hkv, hx, hu⟩
      exact ⟨hu, kv, hkv, hx⟩
    · rintro ⟨hu, kv, hkv, hx⟩
      exact ⟨kv, hkv, hx, hu⟩
  · intro plan x
    exact mem_sunion
  · intro acct c hu hc
    subst hu
    simp only [analysesOf] at hc
    obtain ⟨plan, hplan, rfl⟩ := List.mem_map.1 hc
    have hext : (evalCand L (userFeaturesOf L acct) (synonymHitsOf L acct).length
        (addOnCover L.add_on_plans (userFeaturesOf L acct))
        (appliedAddOns L (userFeaturesOf L acct)) plan).extras = mergeExtras
        (((pysorted (sdiff (L.classify (userFeaturesOf L acct)).normal
            (L.classify (effectiveOf L (userFeaturesOf L acct) plan)).normal)).filter
          (fun f => decide (f ∉ addOnCover L.add_on_plans (userFeaturesOf L acct)))) ++
          appliedAddOns L (userFeaturesOf L acct)) := rfl
    constructor
    · intro kv hkv hused hname
      rw [hext]
      apply mergeExtras_rep
      · apply List.mem_append_right
        exact (happlied kv hkv).2 hused
      · intro hcontra
        exact hname ((lower_eq_nil _).1 hcontra)
    · intro y hy
      rw [hext] at hy
      obtain ⟨x, hx, hyx⟩ := mergeExtras_elements hy
      rcases List.mem_append.1 hx with hx2 | hx2
      · left
        have hfe := List.mem_filter.1 hx2
        exact ⟨x, hfe.1, by simpa using hfe.2, hyx⟩
      · right
        obtain ⟨kv2, hkv2, hfst⟩ := List.mem_map.1 hx2
        have hkv2m : kv2 ∈ L.add_on_plans := (List.mem_filter.1 hkv2).1
        have hany : kv2.2.any (fun f => decide (f ∈ userFeaturesOf L acct)) = true :=
          (List.mem_filter.1 hkv2).2
        refine ⟨kv2, hkv2m, by simpa using hany, ?_⟩
        rw [hyx, hfst]

/-- C3 witness: the amended rule at a concrete engine: the bundle Extra
Pack is applied and its used feature x lands in the add-on cover. -/
theorem c3_addon_application_witness :
    S "Extra Pack" ∈ appliedAddOns EnamedAddon (userFeaturesOf EnamedAddon acctX) ∧
    S "x" ∈ addOnCover EnamedAddon.add_on_plans (userFeaturesOf EnamedAddon acctX) := by
  have h := c3_addon_application EnamedAddon (userFeaturesOf EnamedAddon acctX) (by decide)
  constructor
  · exact (h.1 (S "Extra Pack", [S "x"]) (by decide)).2 ⟨S "x", by decide, by decide⟩
  · exact (h.2.1 (S "x")).2 ⟨by decide, (S "Extra Pack", [S "x"]), by decide, by decide⟩

end UMig
